import Mathlib

/-!
Shallow embedding of the `handle-map` Rust crate (src/lib.rs).

The crate is a generational, name-addressable handle store:

* `Handle` is a pair (slot index, 16-bit generation counter).
* `HandleMap<V>` holds a growable `storage : Vec<V>`, a parallel
  `generations : Vec<u16>` and a `keys_to_indices : FnvHashMap<String, Handle>`
  name index.

Modelling choices:

* `Vec` becomes `List`; `usize` and `u16` become `Nat` with an explicit
  `% 65536` wherever the `u16` generation counter is incremented
  (`generations[index] += 1` wraps modulo 2^16).
* The `FnvHashMap` becomes an association list with at-most-one entry per
  key; `HashMap::insert` replaces any existing entry, `get` and the `iter`
  + `find` scan in `pop` become `List.find?` (hash-map iteration order is
  unspecified in Rust, so any fixed scan order is a valid determinization;
  no claim below depends on the order).
* Every panicking path (`assert_alive` failure, out-of-bounds `Vec`
  indexing, the `expect` in `pop`) is modelled as `none` of an `Option`
  result, while ordinary "no value" results (`pop` on an empty map) stay
  visible as a `some` carrying an inner `Option`.
-/

/-- Rust `Handle { index: usize, generation: Generation }` where
`type Generation = u16` (generations are kept as `Nat`, always `< 65536`
in reachable states). -/
structure Handle where
  index : Nat
  generation : Nat
deriving DecidableEq, Repr

/-- `2^16`, the modulus of the wrapping `u16` generation counter. -/
def genModulus : Nat := 65536

/-- Rust `HandleMap<V>` with fields `generations`, `keys_to_indices`,
`storage`. -/
structure HandleMap (V : Type) where
  generations : List Nat
  keys_to_indices : List (String × Handle)
  storage : List V
deriving DecidableEq, Repr

/-- `HandleMap::new()`. -/
def HandleMap.new (V : Type) : HandleMap V :=
  { generations := [], keys_to_indices := [], storage := [] }

/-- `HandleMap::handle(key)`: lookup in the name index. -/
def HandleMap.handle (m : HandleMap V) (key : String) : Option Handle :=
  (m.keys_to_indices.find? (fun p => p.1 == key)).map (fun p => p.2)

/-- `HandleMap::bump_gen(index)`: if `generations.len() > index`, increment
the (wrapping `u16`) entry in place and return the new value; otherwise push
a fresh `0` and return `0`. -/
def HandleMap.bump_gen (m : HandleMap V) (index : Nat) : Nat × HandleMap V :=
  if index < m.generations.length then
    let g := (m.generations.getD index 0 + 1) % genModulus
    (g, { m with generations := m.generations.set index g })
  else
    (0, { m with generations := m.generations ++ [0] })

/-- `HashMap::insert(key, h)`: replace any entry with the same key. -/
def insertKey (l : List (String × Handle)) (key : String) (h : Handle) :
    List (String × Handle) :=
  (key, h) :: l.filter (fun p => !(p.1 == key))

/-- `HandleMap::insert(key, value)`: allocate at `storage.len()`, bump the
generation there, push the value and record `key ↦ handle`. -/
def HandleMap.insert (m : HandleMap V) (key : String) (value : V) :
    Handle × HandleMap V :=
  let index := m.storage.length
  let r := m.bump_gen index
  let h : Handle := { index := index, generation := r.1 }
  (h, { r.2 with
          storage := r.2.storage ++ [value],
          keys_to_indices := insertKey r.2.keys_to_indices key h })

/-- `HandleMap::pop()`: remove the last value (if any), then scan the name
index for the entry whose handle's `index` equals the freed position and
remove it; if no such entry exists the `expect` panics (outer `none`). -/
def HandleMap.pop (m : HandleMap V) : Option (Option V × HandleMap V) :=
  match m.storage.getLast? with
  | none => some (none, m)
  | some value =>
    let storage := m.storage.dropLast
    let index := storage.length
    match m.keys_to_indices.find? (fun p => p.2.index == index) with
    | none => none
    | some entry =>
      some (some value,
        { m with
            storage := storage,
            keys_to_indices :=
              m.keys_to_indices.filter (fun p => !(p.1 == entry.1)) })

/-- `HandleMap::assert_alive(index)`: `true` exactly when
`generations[index.index]` exists and equals `index.generation`; a
generation mismatch or an out-of-range index into `generations` panics
(`false` here). -/
def HandleMap.assert_alive (m : HandleMap V) (h : Handle) : Bool :=
  m.generations[h.index]? == some h.generation

/-- `Index<Handle> for HandleMap`: `assert_alive` then `&storage[index]`;
any panic is `none`. -/
def HandleMap.indexGet (m : HandleMap V) (h : Handle) : Option V :=
  if m.assert_alive h then m.storage[h.index]? else none

/-- `IndexMut<Handle> for HandleMap`, with the write through the returned
reference made explicit: `assert_alive`, then set `storage[index]`; any
panic is `none`. -/
def HandleMap.indexSet (m : HandleMap V) (h : Handle) (v : V) :
    Option (HandleMap V) :=
  if m.assert_alive h then
    if h.index < m.storage.length then
      some { m with storage := m.storage.set h.index v }
    else none
  else none

/-- `HandleMap::replace(index, value)`: `assert_alive`, swap the value at
`index.index`, bump the generation there, return the old value. -/
def HandleMap.replace (m : HandleMap V) (h : Handle) (value : V) :
    Option (V × HandleMap V) :=
  if m.assert_alive h then
    match m.storage[h.index]? with
    | none => none
    | some old =>
      let m1 := { m with storage := m.storage.set h.index value }
      some (old, (m1.bump_gen h.index).2)
  else none

/-- The spec's liveness invariant, stated in the spec's own words: a handle
`{i, g}` is alive iff `i < len(storage) && generations[i] == g`. -/
def HandleMap.alive (m : HandleMap V) (h : Handle) : Prop :=
  h.index < m.storage.length ∧ m.generations[h.index]? = some h.generation

instance (m : HandleMap V) (h : Handle) : Decidable (m.alive h) := by
  unfold HandleMap.alive
  infer_instance

/-- Rust `#[derive(Ord)]` on `Handle`: compare `index` first, then
`generation`, each by the numeric order of the underlying machine integer. -/
def Handle.cmp (a b : Handle) : Ordering :=
  if a.index < b.index then .lt
  else if b.index < a.index then .gt
  else if a.generation < b.generation then .lt
  else if b.generation < a.generation then .gt
  else .eq

/-- `a < b` for handles, as the derived `Ord` defines it. -/
def Handle.lt (a b : Handle) : Prop := a.cmp b = .lt

instance (a b : Handle) : Decidable (a.lt b) := by
  unfold Handle.lt
  infer_instance

/-- One public operation on the map. -/
inductive Op (V : Type) where
  | insert (key : String) (value : V)
  | pop
  | replace (h : Handle) (value : V)
  | read (h : Handle)
  | write (h : Handle) (value : V)

/-- Apply one operation; `none` means the operation panicked. -/
def applyOp (m : HandleMap V) : Op V → Option (HandleMap V)
  | .insert k v => some (m.insert k v).2
  | .pop => (m.pop).map (fun p => p.2)
  | .replace h v => (m.replace h v).map (fun p => p.2)
  | .read h => (m.indexGet h).map (fun _ => m)
  | .write h v => m.indexSet h v

/-- Run a list of operations, stopping (with `none`) at the first panic. -/
def run (m : HandleMap V) : List (Op V) → Option (HandleMap V)
  | [] => some m
  | op :: ops =>
    match applyOp m op with
    | none => none
    | some m1 => run m1 ops

/-- Fold a list of `(name, value)` insertions over the empty map. -/
def runInserts (l : List (String × V)) : HandleMap V :=
  l.foldl (fun m p => (m.insert p.1 p.2).2) (HandleMap.new V)

theorem bump_gen_keys (m : HandleMap V) (i : Nat) :
    (m.bump_gen i).2.keys_to_indices = m.keys_to_indices := by
  unfold HandleMap.bump_gen
  split <;> rfl

theorem bump_gen_storage (m : HandleMap V) (i : Nat) :
    (m.bump_gen i).2.storage = m.storage := by
  unfold HandleMap.bump_gen
  split <;> rfl

theorem bump_gen_length (m : HandleMap V) (i : Nat) :
    m.generations.length ≤ (m.bump_gen i).2.generations.length := by
  unfold HandleMap.bump_gen
  split <;> simp

theorem bump_gen_length_of_lt (m : HandleMap V) (i : Nat)
    (hi : i < m.generations.length) :
    (m.bump_gen i).2.generations.length = m.generations.length := by
  unfold HandleMap.bump_gen
  rw [if_pos hi]
  simp

theorem bump_gen_get (m : HandleMap V) (i : Nat) (g : Nat)
    (hg : m.generations[i]? = some g) :
    (m.bump_gen i).2.generations[i]? = some ((g + 1) % genModulus) := by
  have hi : i < m.generations.length := by
    by_contra hn
    rw [List.getElem?_eq_none (by omega)] at hg
    cases hg
  have hval : m.generations[i] = g := by
    rw [List.getElem?_eq_getElem hi] at hg
    exact Option.some.inj hg
  have hgd : m.generations.getD i 0 = g := by
    rw [List.getD_eq_getElem?_getD, hg]
    rfl
  unfold HandleMap.bump_gen
  rw [if_pos hi]
  simp [hgd, List.getElem?_set_self, hi, hval]

/-- C10: `Handle`s are ordered lexicographically, index first, generation
second: `a < b` iff `a.index < b.index`, or `a.index = b.index` and
`a.generation < b.generation`; in particular `(0,0) < (1,0)` and
`(0,0) < (0,1)`. -/
theorem handle_lt_lex :
    (∀ a b : Handle,
      a.lt b ↔ (a.index < b.index ∨
        (a.index = b.index ∧ a.generation < b.generation)))
    ∧ Handle.lt { index := 0, generation := 0 } { index := 1, generation := 0 }
    ∧ Handle.lt { index := 0, generation := 0 } { index := 0, generation := 1 } := by
  refine ⟨fun a b => ?_, by decide, by decide⟩
  unfold Handle.lt Handle.cmp
  split_ifs with h1 h2 h3 h4 <;> simp <;> omega

/-- C1: an indexed read or write (`Index`/`IndexMut`) succeeds and hits the
value stored at `h.index` exactly when `h` is alive
(`h.index < len(storage)` and `generations[h.index] == h.generation`);
whenever `h` is dead, both accesses are fatal (`none`), and no defaulted or
stale value is ever returned. -/
theorem index_access_iff_alive (m : HandleMap V) (h : Handle) (v : V) :
    (m.alive h →
      m.indexGet h = m.storage[h.index]? ∧
      (m.storage[h.index]?).isSome = true ∧
      m.indexSet h v = some { m with storage := m.storage.set h.index v })
    ∧ (¬ m.alive h → m.indexGet h = none ∧ m.indexSet h v = none) := by
  constructor
  · rintro ⟨hlt, hgen⟩
    have ha : m.assert_alive h = true := by
      simp [HandleMap.assert_alive, hgen]
    refine ⟨by simp [HandleMap.indexGet, ha], ?_, ?_⟩
    · rw [List.getElem?_eq_getElem hlt]
      rfl
    · simp [HandleMap.indexSet, ha, hlt]
  · intro hna
    by_cases hg : m.generations[h.index]? = some h.generation
    · have hlt : ¬ h.index < m.storage.length := fun hl => hna ⟨hl, hg⟩
      have hs : m.storage[h.index]? = none := List.getElem?_eq_none (by omega)
      have ha : m.assert_alive h = true := by
        simp [HandleMap.assert_alive, hg]
      simp [HandleMap.indexGet, HandleMap.indexSet, ha, hs, hlt]
    · have ha : m.assert_alive h = false := by
        simp [HandleMap.assert_alive, hg]
      simp [HandleMap.indexGet, HandleMap.indexSet, ha]

theorem index_access_iff_alive_witness :
    ({ generations := [0], keys_to_indices := [], storage := [5] } :
        HandleMap Nat).indexGet { index := 0, generation := 0 } = some 5 ∧
    ({ generations := [0], keys_to_indices := [], storage := [5] } :
        HandleMap Nat).indexGet { index := 0, generation := 1 } = none := by
  constructor
  · have hc := (index_access_iff_alive
      ({ generations := [0], keys_to_indices := [], storage := [5] } :
        HandleMap Nat) { index := 0, generation := 0 } 7).1 (by decide)
    rw [hc.1]
    rfl
  · have hc := (index_access_iff_alive
      ({ generations := [0], keys_to_indices := [], storage := [5] } :
        HandleMap Nat) { index := 0, generation := 1 } 7).2 (by decide)
    exact hc.1

/-- C4: `replace` leaves the name index untouched: the key table is
unchanged, so `handle(name)` returns the same result before and after the
replace for every name (in particular a name mapped to the now-dead handle
still maps to it). -/
theorem replace_preserves_name_index (m : HandleMap V) (h : Handle)
    (v p : V) (m2 : HandleMap V) (hr : m.replace h v = some (p, m2)) :
    m2.keys_to_indices = m.keys_to_indices ∧
    ∀ name, m2.handle name = m.handle name := by
  have hk : m2.keys_to_indices = m.keys_to_indices := by
    unfold HandleMap.replace at hr
    split at hr
    · split at hr
      · simp at hr
      · simp only [Option.some.injEq, Prod.mk.injEq] at hr
        obtain ⟨-, hm2⟩ := hr
        rw [← hm2, bump_gen_keys]
    · simp at hr
  refine ⟨hk, fun name => ?_⟩
  unfold HandleMap.handle
  rw [hk]

theorem replace_preserves_name_index_witness :
    ({ generations := [1], keys_to_indices := [("a", ⟨0, 0⟩)],
        storage := [7] } : HandleMap Nat).handle "a"
      = ({ generations := [0], keys_to_indices := [("a", ⟨0, 0⟩)],
           storage := [5] } : HandleMap Nat).handle "a" :=
  (replace_preserves_name_index
    ({ generations := [0], keys_to_indices := [("a", ⟨0, 0⟩)],
         storage := [5] } : HandleMap Nat) ⟨0, 0⟩ 7 5 _ rfl).2 "a"

/-- C3: for an alive handle `h`, `replace(h, v)` returns the value
previously stored at `h.index`, leaves `v` at that same storage position,
and bumps the generation at `h.index`, so `h` (and every handle for that
index that was alive before, and any handle for that index whose
generation is not the bumped one) is dead afterwards: subsequent accesses
through them are fatal. -/
theorem replace_invalidates (m : HandleMap V) (h : Handle) (v : V)
    (ha : m.alive h) :
    ∃ p m2, m.replace h v = some (p, m2) ∧
      m.storage[h.index]? = some p ∧
      m2.storage = m.storage.set h.index v ∧
      m2.generations[h.index]? = some ((h.generation + 1) % genModulus) ∧
      ¬ m2.alive h ∧
      m2.indexGet h = none ∧
      (∀ v2, m2.replace h v2 = none) ∧
      (∀ h2 : Handle, h2.index = h.index → m.alive h2 → ¬ m2.alive h2) ∧
      (∀ h2 : Handle, h2.index = h.index → m2.alive h2 →
        h2.generation = (h.generation + 1) % genModulus) := by
  obtain ⟨hlt, hgen⟩ := ha
  have haa : m.assert_alive h = true := by
    simp [HandleMap.assert_alive, hgen]
  have hs : m.storage[h.index]? = some m.storage[h.index] :=
    List.getElem?_eq_getElem hlt
  refine ⟨m.storage[h.index],
    (HandleMap.bump_gen
      { m with storage := m.storage.set h.index v } h.index).2, ?_, hs,
    ?_, ?_, ?_, ?_, ?_, ?_, ?_⟩
  · simp [HandleMap.replace, haa, hs]
  · rw [bump_gen_storage]
  · exact bump_gen_get _ h.index h.generation hgen
  · rintro ⟨-, hg2⟩
    rw [bump_gen_get ({ m with storage := m.storage.set h.index v })
      h.index h.generation hgen] at hg2
    have := Option.some.inj hg2
    unfold genModulus at this
    omega
  · have hg2 := bump_gen_get
      ({ m with storage := m.storage.set h.index v }) h.index h.generation hgen
    have hne : ¬ ((h.generation + 1) % genModulus = h.generation) := by
      unfold genModulus
      omega
    simp [HandleMap.indexGet, HandleMap.assert_alive, hg2, hne]
  · intro v2
    have hg2 := bump_gen_get
      ({ m with storage := m.storage.set h.index v }) h.index h.generation hgen
    have hne : ¬ ((h.generation + 1) % genModulus = h.generation) := by
      unfold genModulus
      omega
    simp [HandleMap.replace, HandleMap.assert_alive, hg2, hne]
  · rintro h2 hidx ⟨-, hg2⟩ ⟨-, hg3⟩
    rw [hidx] at hg2 hg3
    rw [bump_gen_get ({ m with storage := m.storage.set h.index v })
      h.index h.generation hgen] at hg3
    rw [hgen] at hg2
    have e1 := Option.some.inj hg2
    have e2 := Option.some.inj hg3
    unfold genModulus at e2
    omega
  · rintro h2 hidx ⟨-, hg2⟩
    rw [hidx, bump_gen_get ({ m with storage := m.storage.set h.index v })
      h.index h.generation hgen] at hg2
    exact (Option.some.inj hg2).symm

theorem replace_invalidates_witness :
    ∃ p m2,
      ({ generations := [0], keys_to_indices := [("a", ⟨0, 0⟩)],
          storage := [5] } : HandleMap Nat).replace ⟨0, 0⟩ 7
        = some (p, m2) ∧ ¬ m2.alive ⟨0, 0⟩ := by
  obtain ⟨p, m2, h1, -, -, -, h5, -⟩ :=
    replace_invalidates
      ({ generations := [0], keys_to_indices := [("a", ⟨0, 0⟩)],
          storage := [5] } : HandleMap Nat) ⟨0, 0⟩ 7 (by decide)
  exact ⟨p, m2, h1, h5⟩

theorem pop_state (m : HandleMap V) (r : Option V × HandleMap V)
    (hp : m.pop = some r) :
    r.2.generations = m.generations ∧
    r.2.storage.length ≤ m.storage.length := by
  unfold HandleMap.pop at hp
  split at hp
  · simp only [Option.some.injEq] at hp
    rw [← hp]
    exact ⟨rfl, Nat.le_refl _⟩
  · dsimp only at hp
    split at hp
    · cases hp
    · simp only [Option.some.injEq] at hp
      rw [← hp]
      refine ⟨rfl, ?_⟩
      simp only [List.length_dropLast]
      omega

/-- C6: `pop()` on an empty map returns the ordinary "no value" result and
does not panic; and whenever `pop()` returns `Some(v)`, the number of
stored values decreases by exactly one and `v` is the most recently
inserted value not yet removed (the last element of the storage stack). -/
theorem pop_stack_discipline :
    ((HandleMap.new V).pop = some (none, HandleMap.new V))
    ∧ (∀ (m m2 : HandleMap V) (v : V), m.pop = some (some v, m2) →
        m2.storage.length + 1 = m.storage.length ∧
        m.storage = m2.storage ++ [v]) := by
  constructor
  · rfl
  · intro m m2 v hp
    unfold HandleMap.pop at hp
    split at hp
    · simp at hp
    · rename_i value hl
      dsimp only at hp
      split at hp
      · cases hp
      · simp only [Option.some.injEq, Prod.mk.injEq] at hp
        obtain ⟨hv, hm2⟩ := hp
        have hval : value = v := hv
        have hst : m2.storage = m.storage.dropLast := by
          rw [← hm2]
        have happ : m.storage.dropLast ++ [v] = m.storage := by
          rw [← hval]
          exact List.dropLast_append_getLast? value (Option.mem_def.mpr hl)
        constructor
        · rw [hst, ← happ]
          simp
        · rw [hst, happ]

theorem pop_stack_discipline_witness :
    ({ generations := [0, 0], keys_to_indices := [("b", ⟨1, 0⟩)],
        storage := [] } : HandleMap Nat).storage.length + 1
      = ({ generations := [0, 0],
           keys_to_indices := [("a", ⟨0, 0⟩), ("b", ⟨1, 0⟩)],
           storage := [3] } : HandleMap Nat).storage.length :=
  ((pop_stack_discipline (V := Nat)).2
    ({ generations := [0, 0],
       keys_to_indices := [("a", ⟨0, 0⟩), ("b", ⟨1, 0⟩)],
       storage := [3] })
    ({ generations := [0, 0], keys_to_indices := [("b", ⟨1, 0⟩)],
       storage := [] }) 3 rfl).1

theorem bump_gen_get_ret (m : HandleMap V) (i : Nat)
    (hi : i ≤ m.generations.length) :
    (m.bump_gen i).2.generations[i]? = some (m.bump_gen i).1 := by
  unfold HandleMap.bump_gen
  split
  · rename_i hlt
    simp [List.getElem?_set_self, hlt]
  · rename_i hge
    have he : i = m.generations.length := by omega
    subst he
    simp [List.getElem?_concat_length]

theorem bump_gen_len_succ (m : HandleMap V) (i : Nat)
    (hi : i ≤ m.generations.length) :
    i < (m.bump_gen i).2.generations.length := by
  unfold HandleMap.bump_gen
  split
  · rename_i hlt
    simpa using hlt
  · rename_i hge
    have he : i = m.generations.length := by omega
    simp [he]

theorem insert_spec (m : HandleMap V) (k : String) (v : V)
    (hinv : m.storage.length ≤ m.generations.length) :
    (m.insert k v).2.handle k = some (m.insert k v).1 ∧
    (m.insert k v).2.indexGet (m.insert k v).1 = some v ∧
    (m.insert k v).2.storage = m.storage ++ [v] ∧
    (m.insert k v).2.storage.length ≤ (m.insert k v).2.generations.length := by
  have hst : (m.insert k v).2.storage = m.storage ++ [v] := by
    show (m.bump_gen m.storage.length).2.storage ++ [v] = m.storage ++ [v]
    rw [bump_gen_storage]
  have hgens : (m.insert k v).2.generations
      = (m.bump_gen m.storage.length).2.generations := rfl
  have hidx : (m.insert k v).1.index = m.storage.length := rfl
  have hgen : (m.insert k v).1.generation = (m.bump_gen m.storage.length).1 :=
    rfl
  have hkeys : (m.insert k v).2.keys_to_indices
      = insertKey m.keys_to_indices k (m.insert k v).1 := by
    show insertKey (m.bump_gen m.storage.length).2.keys_to_indices k _
      = insertKey m.keys_to_indices k _
    rw [bump_gen_keys]
    rfl
  refine ⟨?_, ?_, hst, ?_⟩
  · rw [HandleMap.handle, hkeys, insertKey]
    simp
  · have hgget : (m.insert k v).2.generations[(m.insert k v).1.index]?
        = some (m.insert k v).1.generation := by
      rw [hgens, hidx, hgen]
      exact bump_gen_get_ret m m.storage.length hinv
    have haa : (m.insert k v).2.assert_alive (m.insert k v).1 = true := by
      simp [HandleMap.assert_alive, hgget]
    have hsget : (m.insert k v).2.storage[(m.insert k v).1.index]? = some v := by
      rw [hst, hidx]
      exact List.getElem?_concat_length m.storage v
    simp [HandleMap.indexGet, haa, hsget]
  · rw [hst, hgens]
    have := bump_gen_len_succ m m.storage.length hinv
    simp only [List.length_append, List.length_singleton]
    omega

theorem foldl_insert_inv (l : List (String × V)) (m : HandleMap V)
    (hm : m.storage.length ≤ m.generations.length) :
    (l.foldl (fun m p => (m.insert p.1 p.2).2) m).storage.length ≤
    (l.foldl (fun m p => (m.insert p.1 p.2).2) m).generations.length := by
  induction l generalizing m with
  | nil => simpa using hm
  | cons p l ih =>
    simp only [List.foldl_cons]
    exact ih _ (insert_spec m p.1 p.2 hm).2.2.2

/-- C2: for any sequence of insertions with pairwise-distinct names,
immediately after `insert(name, value)` the lookup `handle(name)` returns
`Some` of the very handle that the insert returned, and an indexed read
through that handle returns exactly `value`. -/
theorem insert_handle_round_trip (pre : List (String × V)) (name : String)
    (v : V)
    (_hnodup : ((pre ++ [(name, v)]).map Prod.fst).Nodup) :
    ((runInserts pre).insert name v).2.handle name
        = some ((runInserts pre).insert name v).1 ∧
    ((runInserts pre).insert name v).2.indexGet
        ((runInserts pre).insert name v).1 = some v := by
  have hinv : (runInserts pre).storage.length ≤
      (runInserts pre).generations.length :=
    foldl_insert_inv pre (HandleMap.new V) (Nat.le_refl 0)
  obtain ⟨h1, h2, -, -⟩ := insert_spec (runInserts pre) name v hinv
  exact ⟨h1, h2⟩

theorem insert_handle_round_trip_witness :
    ((runInserts (V := Nat) [("a", 1)]).insert "b" 2).2.handle "b"
        = some ((runInserts (V := Nat) [("a", 1)]).insert "b" 2).1 ∧
    ((runInserts (V := Nat) [("a", 1)]).insert "b" 2).2.indexGet
        ((runInserts (V := Nat) [("a", 1)]).insert "b" 2).1 = some 2 :=
  insert_handle_round_trip [("a", 1)] "b" 2 (by decide)

theorem replace_state (m : HandleMap V) (h : Handle) (v : V)
    (r : V × HandleMap V) (hr : m.replace h v = some r) :
    r.2.storage.length = m.storage.length ∧
    m.generations.length ≤ r.2.generations.length := by
  unfold HandleMap.replace at hr
  split at hr
  · split at hr
    · cases hr
    · simp only [Option.some.injEq] at hr
      rw [← hr]
      dsimp only
      constructor
      · rw [bump_gen_storage]
        simp
      · exact bump_gen_length
          ({ m with storage := m.storage.set h.index v }) h.index
  · cases hr

theorem applyOp_gen_mono (m m2 : HandleMap V) (op : Op V)
    (hstep : applyOp m op = some m2) :
    m.generations.length ≤ m2.generations.length := by
  cases op with
  | insert k v =>
    have he := Option.some.inj hstep
    rw [← he]
    exact bump_gen_length m m.storage.length
  | pop =>
    have hps : applyOp m Op.pop = (m.pop).map (fun p => p.2) := rfl
    rw [hps] at hstep
    cases hpop : m.pop with
    | none => rw [hpop] at hstep; cases hstep
    | some r =>
      rw [hpop] at hstep
      have he : r.2 = m2 := Option.some.inj hstep
      rw [← he, (pop_state m r hpop).1]
  | replace h v =>
    have hps : applyOp m (Op.replace h v) = (m.replace h v).map (fun p => p.2) :=
      rfl
    rw [hps] at hstep
    cases hrep : m.replace h v with
    | none => rw [hrep] at hstep; cases hstep
    | some r =>
      rw [hrep] at hstep
      have he : r.2 = m2 := Option.some.inj hstep
      rw [← he]
      exact (replace_state m h v r hrep).2
  | read h =>
    have hps : applyOp m (Op.read h) = (m.indexGet h).map (fun _ => m) := rfl
    rw [hps] at hstep
    cases hget : m.indexGet h with
    | none => rw [hget] at hstep; cases hstep
    | some w =>
      rw [hget] at hstep
      have he : m = m2 := Option.some.inj hstep
      rw [← he]
  | write h v =>
    have hws : applyOp m (Op.write h v) = m.indexSet h v := rfl
    rw [hws] at hstep
    unfold HandleMap.indexSet at hstep
    split at hstep
    · split at hstep
      · have he := Option.some.inj hstep
        rw [← he]
      · cases hstep
    · cases hstep

theorem applyOp_inv (m m2 : HandleMap V) (op : Op V)
    (hm : m.storage.length ≤ m.generations.length)
    (hstep : applyOp m op = some m2) :
    m2.storage.length ≤ m2.generations.length := by
  cases op with
  | insert k v =>
    have he := Option.some.inj hstep
    rw [← he]
    exact (insert_spec m k v hm).2.2.2
  | pop =>
    have hps : applyOp m Op.pop = (m.pop).map (fun p => p.2) := rfl
    rw [hps] at hstep
    cases hpop : m.pop with
    | none => rw [hpop] at hstep; cases hstep
    | some r =>
      rw [hpop] at hstep
      have he : r.2 = m2 := Option.some.inj hstep
      obtain ⟨hg, hs⟩ := pop_state m r hpop
      rw [← he, hg]
      omega
  | replace h v =>
    have hps : applyOp m (Op.replace h v) = (m.replace h v).map (fun p => p.2) :=
      rfl
    rw [hps] at hstep
    cases hrep : m.replace h v with
    | none => rw [hrep] at hstep; cases hstep
    | some r =>
      rw [hrep] at hstep
      have he : r.2 = m2 := Option.some.inj hstep
      obtain ⟨hs, hg⟩ := replace_state m h v r hrep
      rw [← he]
      omega
  | read h =>
    have hps : applyOp m (Op.read h) = (m.indexGet h).map (fun _ => m) := rfl
    rw [hps] at hstep
    cases hget : m.indexGet h with
    | none => rw [hget] at hstep; cases hstep
    | some w =>
      rw [hget] at hstep
      have he : m = m2 := Option.some.inj hstep
      rw [← he]
      exact hm
  | write h v =>
    have hws : applyOp m (Op.write h v) = m.indexSet h v := rfl
    rw [hws] at hstep
    unfold HandleMap.indexSet at hstep
    split at hstep
    · split at hstep
      · have he := Option.some.inj hstep
        rw [← he]
        simpa using hm
      · cases hstep
    · cases hstep

theorem run_inv (ops : List (Op V)) : ∀ (m m2 : HandleMap V),
    m.storage.length ≤ m.generations.length →
    run m ops = some m2 →
    m2.storage.length ≤ m2.generations.length := by
  induction ops with
  | nil =>
    intro m m2 hm hr
    simp only [run, Option.some.injEq] at hr
    rw [← hr]
    exact hm
  | cons op ops ih =>
    intro m m2 hm hr
    unfold run at hr
    split at hr
    · cases hr
    · rename_i m1 hstep
      exact ih m1 m2 (applyOp_inv m m1 op hm hstep) hr

/-- C7: in every state reachable from a freshly constructed map by any
sequence of `insert`, `pop`, `replace` and indexed accesses,
`len(generations) >= len(storage)`; and no operation ever removes a
generations entry (the generations length never decreases across any
successful operation). -/
theorem generations_cover_storage :
    (∀ (ops : List (Op V)) (m : HandleMap V),
      run (HandleMap.new V) ops = some m →
      m.storage.length ≤ m.generations.length)
    ∧ (∀ (m m2 : HandleMap V) (op : Op V), applyOp m op = some m2 →
        m.generations.length ≤ m2.generations.length) := by
  constructor
  · intro ops m hr
    exact run_inv ops (HandleMap.new V) m (Nat.le_refl 0) hr
  · intro m m2 op hstep
    exact applyOp_gen_mono m m2 op hstep

theorem generations_cover_storage_witness :
    ({ generations := [0], keys_to_indices := [("a", ⟨0, 0⟩)],
        storage := [1] } : HandleMap Nat).storage.length
      ≤ ({ generations := [0], keys_to_indices := [("a", ⟨0, 0⟩)],
           storage := [1] } : HandleMap Nat).generations.length :=
  (generations_cover_storage (V := Nat)).1 [Op.insert "a" 1]
    ({ generations := [0], keys_to_indices := [("a", ⟨0, 0⟩)],
       storage := [1] }) rfl

/-- C8: inserting a value under a name, inserting a second value under the
same name, then popping twice: the first `pop()` succeeds and returns the
second value, but the second `pop()` hits the internal-consistency `expect`
(fatal, `none`) instead of returning the first value, because the duplicate
insert overwrote the single name-index entry and the freed slot's index
matches no remaining entry. -/
theorem duplicate_name_second_pop_panics :
    (((HandleMap.new Nat).insert "x" 1).2.insert "x" 2).2.pop
        = some (some 2,
            { generations := [0, 0], keys_to_indices := [],
              storage := [1] }) ∧
    ({ generations := [0, 0], keys_to_indices := [],
        storage := [1] } : HandleMap Nat).pop = none := by
  constructor
  · rfl
  · rfl

/-- Iterate `bump_gen` at a fixed slot index `n` times. -/
def bumpIter (m : HandleMap V) (i : Nat) : Nat → HandleMap V
  | 0 => m
  | n + 1 => bumpIter (m.bump_gen i).2 i n

theorem bumpIter_storage (i : Nat) :
    ∀ (n : Nat) (m : HandleMap V), (bumpIter m i n).storage = m.storage := by
  intro n
  induction n with
  | zero => intro m; rfl
  | succ n ih =>
    intro m
    show (bumpIter (m.bump_gen i).2 i n).storage = m.storage
    rw [ih, bump_gen_storage]

theorem bumpIter_get (i : Nat) :
    ∀ (n : Nat) (m : HandleMap V) (g : Nat), g < genModulus →
      m.generations[i]? = some g →
      (bumpIter m i n).generations[i]? = some ((g + n) % genModulus) := by
  intro n
  induction n with
  | zero =>
    intro m g hg hm
    show m.generations[i]? = some ((g + 0) % genModulus)
    rw [hm]
    unfold genModulus at hg ⊢
    congr 1
    omega
  | succ n ih =>
    intro m g hg hm
    have h1 := bump_gen_get m i g hm
    have h2 := ih (m.bump_gen i).2 ((g + 1) % genModulus)
      (Nat.mod_lt _ (by unfold genModulus; omega)) h1
    show (bumpIter (m.bump_gen i).2 i n).generations[i]?
      = some ((g + (n + 1)) % genModulus)
    rw [h2]
    congr 1
    rw [Nat.mod_add_mod]
    congr 1
    omega

/-- C9: the generation counter is a 16-bit unsigned integer wrapping modulo
2^16: after exactly 65536 generation bumps at the same slot index the
stored generation returns to its original value, the rest of the map's
storage being untouched, so a handle carrying the original generation at
that index compares alive again exactly as it did before the bumps. -/
theorem generation_wraps_u16 (m : HandleMap V) (i g : Nat)
    (hg : m.generations[i]? = some g) (hlt : g < 65536) :
    (bumpIter m i 65536).generations[i]? = some g ∧
    (bumpIter m i 65536).storage = m.storage ∧
    (∀ h : Handle, h.index = i →
      ((bumpIter m i 65536).alive h ↔ m.alive h)) := by
  have hmod : (g + 65536) % genModulus = g := by
    unfold genModulus
    omega
  have hfin : (bumpIter m i 65536).generations[i]? = some g := by
    rw [bumpIter_get i 65536 m g hlt hg, hmod]
  refine ⟨hfin, bumpIter_storage i 65536 m, fun h hidx => ?_⟩
  unfold HandleMap.alive
  rw [bumpIter_storage i 65536 m, hidx, hfin, hg]

theorem generation_wraps_u16_witness :
    (bumpIter ({ generations := [3], keys_to_indices := [],
                 storage := [9] } : HandleMap Nat) 0 65536).generations[0]?
      = some 3 :=
  (generation_wraps_u16
    ({ generations := [3], keys_to_indices := [], storage := [9] } :
        HandleMap Nat) 0 3 rfl (by omega)).1

/-- C5: insert value `a` under one name, then value `b` under a second
name; `pop()` removes `b`, the handle that the second insert returned is
dead afterwards (indexed access and `replace` through it are fatal), and
looking up the second name returns `None` because `pop` removed its
name-index entry. -/
theorem stale_after_pop (nA nB : String) (a b v : V) (hne : nA ≠ nB) :
    ∃ m3 : HandleMap V,
      (((HandleMap.new V).insert nA a).2.insert nB b).2.pop
          = some (some b, m3) ∧
      ¬ m3.alive (((HandleMap.new V).insert nA a).2.insert nB b).1 ∧
      m3.indexGet (((HandleMap.new V).insert nA a).2.insert nB b).1 = none ∧
      m3.replace (((HandleMap.new V).insert nA a).2.insert nB b).1 v = none ∧
      m3.handle nB = none := by
  have hbeq : (nA == nB) = false := by
    simp [hne]
  have hm1 : ((HandleMap.new V).insert nA a).2
      = { generations := [0], keys_to_indices := [(nA, ⟨0, 0⟩)],
          storage := [a] } := rfl
  have hm2 : (((HandleMap.new V).insert nA a).2.insert nB b).2
      = { generations := [0, 0],
          keys_to_indices := [(nB, ⟨1, 0⟩), (nA, ⟨0, 0⟩)],
          storage := [a, b] } := by
    rw [hm1]
    simp [HandleMap.insert, HandleMap.bump_gen, insertKey, List.filter, hbeq]
  have hB : (((HandleMap.new V).insert nA a).2.insert nB b).1
      = ⟨1, 0⟩ := rfl
  refine ⟨{ generations := [0, 0], keys_to_indices := [(nA, ⟨0, 0⟩)],
            storage := [a] }, ?_, ?_, ?_, ?_, ?_⟩
  · rw [hm2]
    simp [HandleMap.pop, List.find?, List.filter, hbeq]
  · rw [hB]
    simp [HandleMap.alive]
  · rw [hB]
    simp [HandleMap.indexGet, HandleMap.assert_alive]
  · rw [hB]
    simp [HandleMap.replace, HandleMap.assert_alive]
  · simp [HandleMap.handle, List.find?, hbeq]

theorem stale_after_pop_witness :
    ∃ m3 : HandleMap Nat,
      (((HandleMap.new Nat).insert "A" 1).2.insert "B" 2).2.pop
          = some (some 2, m3) ∧
      ¬ m3.alive (((HandleMap.new Nat).insert "A" 1).2.insert "B" 2).1 ∧
      m3.indexGet (((HandleMap.new Nat).insert "A" 1).2.insert "B" 2).1
          = none ∧
      m3.replace (((HandleMap.new Nat).insert "A" 1).2.insert "B" 2).1 9
          = none ∧
      m3.handle "B" = none :=
  stale_after_pop "A" "B" 1 2 9 (by decide)
